import Mathlib

/-!
# Verification of the tinysexpr reader

Shallow embedding of `src/tinysexpr/__init__.py` (the generator-based
S-expression reader with coordinate tracking).  The character stream is a
`List Char`; the mutable cursor (`ch`, `coord`, `next_coord`, the unread
suffix of the file) is the `Cursor` structure; the generator is embedded as
the step function `readStep` (one pull = one top-level form) and its driver
`readAll`.  Recursion is made structural with an explicit fuel argument;
running out of fuel is the distinguished error `Err.outOfFuel`, and the
top-level wrapper `read` supplies fuel that is ample for its input.
-/

/-- A (row, column) pair as tracked by the reader. -/
abbrev Coord := Nat × Nat

/-- A span: start and end coordinate.  The reader's `coord` variable starts
out as `None`, hence the `Option`. -/
abbrev CRange := Option Coord × Option Coord

/-- The coordinate update performed inside `next()`:
`if ch == '\n': next_coord = (row + 1, 1) else: next_coord = (row, col + 1)`
where `ch` is the character **newly read** by that call. -/
def stepC (rc : Coord) (ch : Char) : Coord :=
  if ch = '\n' then (rc.1 + 1, 1) else (rc.1, rc.2 + 1)

/-- The character cursor: `rest` is the part of the file not yet read,
`ch` the current character (`none` models Python's `''` at end of stream),
`coord` and `nextCoord` the two coordinate variables of the reader. -/
structure Cursor where
  rest : List Char
  ch : Option Char
  coord : Option Coord
  nextCoord : Coord
  deriving Repr, DecidableEq

/-- `ch = file_like.read(1); next_coord = (1, 1); coord = None` — the state
after the reader's initialization. -/
def Cursor.init (s : List Char) : Cursor :=
  match s with
  | [] => ⟨[], none, none, (1, 1)⟩
  | c :: cs => ⟨cs, some c, none, (1, 1)⟩

/-- `next()`: read one character, set `coord` to the old `next_coord`, and
advance `next_coord` according to the newly read character. -/
def Cursor.next (st : Cursor) : Cursor :=
  match st.rest with
  | [] => ⟨[], none, some st.nextCoord, stepC st.nextCoord (Char.ofNat 0)⟩
  | c :: cs => ⟨cs, some c, some st.nextCoord, stepC st.nextCoord c⟩

/-- The characters the cursor has not yet consumed (current one included). -/
def Cursor.unconsumed (st : Cursor) : List Char :=
  match st.ch with
  | none => []
  | some c => c :: st.rest

/-- Number of unconsumed characters; the fuel arguments are measured
against it. -/
def Cursor.size (st : Cursor) : Nat := st.unconsumed.length

/-- The errors the reader can raise, mirroring `SyntaxError` and its three
subclasses; `outOfFuel` is the artifact of the fuel embedding and
`assertFail` models the `assert not c.isspace()` statement in `parse`. -/
inductive Err where
  | unexpectedEOF : Option Coord → Err
  | unexpectedChar : Option Coord → Char → Char → Err
  | invalidEscape : Option Coord → Option Char → Err
  | outOfFuel : Err
  | assertFail : Err
  deriving Repr, DecidableEq

/-- The apostrophe character used by the error messages. -/
def quoteC : Char := Char.ofNat 39

/-- The `msg` text of each `SyntaxError` subclass, as a character list:
`'unexpected end of file'`, `f"expected '{expected}', got '{got}'"`,
`f"invalid escape character '{char}'"`. -/
def Err.value : Err → List Char
  | .unexpectedEOF _ => "unexpected end of file".toList
  | .unexpectedChar _ e g =>
      "expected ".toList ++ [quoteC, e, quoteC] ++ ", got ".toList ++ [quoteC, g, quoteC]
  | .invalidEscape _ c =>
      "invalid escape character ".toList ++ [quoteC] ++
        (match c with | some x => [x] | none => []) ++ [quoteC]
  | .outOfFuel => []
  | .assertFail => []

/-- A parsed value: an atom's text (the default `atom_handler` keeps just
the text) or a nested form `SExpr(s, range)`. -/
inductive SExpr where
  | atom : List Char → SExpr
  | form : List SExpr → CRange → SExpr

/-- One delimiter's configuration: optional escape character and escape map
(mapping the character after the escape to its replacement text). -/
structure DelimInfo where
  esc : Option Char
  emap : List (Char × List Char)
  deriving Repr, DecidableEq

/-- The reader's configuration: the delimiter map and the comment character. -/
structure Config where
  delims : List (Char × DelimInfo)
  comment : Char
  deriving Repr, DecidableEq

/-- `DEFAULT_DELIMS`: double-quoted strings with backslash escapes
`n t r \ "`, and bar-quoted symbols without escapes. -/
def DEFAULT_DELIMS : List (Char × DelimInfo) :=
  [('"', ⟨some '\\', [('n', ['\n']), ('t', ['\t']), ('r', ['\r']),
                      ('\\', ['\\']), ('"', ['"'])]⟩),
   ('|', ⟨none, []⟩)]

/-- The default configuration of `read`. -/
def defaultConfig : Config := ⟨DEFAULT_DELIMS, ';'⟩

/-- `str.isspace()` restricted to the ASCII whitespace characters (the only
whitespace the repository's inputs use). -/
def isspace (c : Char) : Bool :=
  c = ' ' || c = '\t' || c = '\n' || c = '\r' || c = '\x0b' || c = '\x0c'

/-- Membership in `sym_delim = set('()' + comment_char + delimiter keys)`. -/
def symDelim (cfg : Config) (c : Char) : Bool :=
  c = '(' || c = ')' || c = cfg.comment || (cfg.delims.lookup c).isSome

/-- The inner loop of `skip_ws`: `while c and c != '\n': c = next()`. -/
def skipComment : Nat → Cursor → Except Err Cursor
  | 0, _ => .error .outOfFuel
  | fuel + 1, st =>
    match st.ch with
    | none => .ok st
    | some c => if c = '\n' then .ok st else skipComment fuel st.next

/-- `skip_ws()`: skip whitespace and single-line comments, stopping at the
first other character or at end of stream. -/
def skip_ws (cfg : Config) : Nat → Cursor → Except Err Cursor
  | 0, _ => .error .outOfFuel
  | fuel + 1, st =>
    match st.ch with
    | none => .ok st
    | some c =>
      if isspace c then skip_ws cfg fuel st.next
      else if c = cfg.comment then
        match skipComment fuel st.next with
        | .error e => .error e
        | .ok st' => skip_ws cfg fuel st'
      else .ok st

/-- The `while c:` loop of `read_delim`, with `acc` the accumulated pieces
and `begin` the saved start coordinate.  The loop is entered after the
`c = next()` that follows `read = [curr()]`. -/
def rdLoop (delim : Char) (esc : Option Char) (emap : List (Char × List Char))
    (begin : Option Coord) : Nat → List Char → Cursor → Except Err (List Char × CRange × Cursor)
  | 0, _, _ => .error .outOfFuel
  | fuel + 1, acc, st =>
    match st.ch with
    | none => .error (.unexpectedEOF st.coord)
    | some c =>
      if some c = esc then
        let st2 := st.next
        match st2.ch with
        | some e =>
          match emap.lookup e with
          | some rep => rdLoop delim esc emap begin fuel (acc ++ rep) st2.next
          | none => .error (.invalidEscape st2.coord (some e))
        | none => .error (.invalidEscape st2.coord none)
      else if c = delim then
        let st2 := st.next
        .ok (acc ++ [c], (begin, st2.coord), st2)
      else rdLoop delim esc emap begin fuel (acc ++ [c]) st.next

/-- `read_delim(delim, delim_info)`: read one delimited atom starting at the
current character (the opening delimiter); `begin = coord` is saved before
any advance. -/
def read_delim (delim : Char) (esc : Option Char) (emap : List (Char × List Char)) :
    Nat → Cursor → Except Err (List Char × CRange × Cursor)
  | 0, _ => .error .outOfFuel
  | fuel + 1, st =>
    let acc := match st.ch with | none => [] | some c => [c]
    rdLoop delim esc emap st.coord fuel acc st.next

/-- The loop of `read_atom`: accumulate while the character is neither
whitespace nor reserved. -/
def raLoop (cfg : Config) : Nat → List Char → Cursor → Except Err (List Char × Cursor)
  | 0, _, _ => .error .outOfFuel
  | fuel + 1, acc, st =>
    match st.ch with
    | none => .ok (acc, st)
    | some c =>
      if isspace c || symDelim cfg c then .ok (acc, st)
      else raLoop cfg fuel (acc ++ [c]) st.next

/-- `read_atom()`: read a bare atom; the range runs from the saved `coord`
to the `coord` after the last consumed character. -/
def read_atom (cfg : Config) (fuel : Nat) (st : Cursor) :
    Except Err (List Char × CRange × Cursor) :=
  match raLoop cfg fuel [] st with
  | .error e => .error e
  | .ok (t, st') => .ok (t, (st.coord, st'.coord), st')

/-- `parse(begin)`: the recursive form parser.  `exp` is the accumulated
element list of the currently open form; the default `atom_handler` turns
each atom into its text. -/
def parse (cfg : Config) : Nat → Option Coord → List SExpr → Cursor →
    Except Err (SExpr × Cursor)
  | 0, _, _, _ => .error .outOfFuel
  | fuel + 1, begin, exp, st =>
    match skip_ws cfg (fuel + 1) st with
    | .error e => .error e
    | .ok st1 =>
      match st1.ch with
      | none => .error (.unexpectedEOF st1.coord)
      | some c =>
        if c = '(' then
          let st2 := st1.next
          match parse cfg fuel st2.coord [] st2 with
          | .error e => .error e
          | .ok (s, st3) => parse cfg fuel begin (exp ++ [s]) st3
        else if c = ')' then
          let st2 := st1.next
          .ok (.form exp (begin, st2.coord), st2)
        else
          match cfg.delims.lookup c with
          | some info =>
            match read_delim c info.esc info.emap (fuel + 1) st1 with
            | .error e => .error e
            | .ok (t, _, st2) => parse cfg fuel begin (exp ++ [.atom t]) st2
          | none =>
            if isspace c then .error .assertFail
            else
              match read_atom cfg (fuel + 1) st1 with
              | .error e => .error e
              | .ok (t, _, st2) => parse cfg fuel begin (exp ++ [.atom t]) st2

/-- One resumption of the generator: skip trivia, then either terminate the
sequence (`ok none`), parse and yield one top-level form, or fail with
`UnexpectedChar`. -/
def readStep (cfg : Config) (fuel : Nat) (st : Cursor) :
    Except Err (Option (SExpr × Cursor)) :=
  match skip_ws cfg fuel st with
  | .error e => .error e
  | .ok st1 =>
    match st1.ch with
    | none => .ok none
    | some c =>
      if c = '(' then
        let st2 := st1.next
        match parse cfg fuel st2.coord [] st2 with
        | .error e => .error e
        | .ok (s, st3) => .ok (some (s, st3))
      else .error (.unexpectedChar st1.coord '(' c)

/-- Drive the generator to exhaustion, collecting every yielded form. -/
def readAll (cfg : Config) : Nat → Cursor → Except Err (List SExpr)
  | 0, _ => .error .outOfFuel
  | fuel + 1, st =>
    match readStep cfg (fuel + 1) st with
    | .error e => .error e
    | .ok none => .ok []
    | .ok (some (s, st')) =>
      match readAll cfg fuel st' with
      | .error e => .error e
      | .ok l => .ok (s :: l)

/-- Ample fuel for an input of length `n`. -/
def fuelFor (n : Nat) : Nat := n + 16

/-- `read(file_like, ...)`, fully consumed: the list of all top-level forms
of the input, or the first error raised. -/
def read (cfg : Config) (s : List Char) : Except Err (List SExpr) :=
  readAll cfg (fuelFor s.length) (Cursor.init s)

/-! ## Specification-side definitions

These follow the spec's words (not the code) and are compared against the
embedded reader. -/

/-- The coordinates the spec assigns to the characters of a stream, starting
from `rc`: both 1-indexed, advanced per consumed character; consuming a
newline makes the following character's coordinate `(row + 1, 1)`, consuming
any other character makes it `(row, column + 1)`. -/
def specPos (rc : Coord) : List Char → List Coord
  | [] => []
  | c :: cs => rc :: specPos (stepC rc c) cs

/-- The true 1-indexed (row, column) position of each character of a stream,
per the spec's coordinate rule, starting at `(1, 1)`. -/
def specCoords (s : List Char) : List Coord := specPos (1, 1) s

/-- The decoding of a delimited atom's body per the spec's words: escapes
replaced via the escape map, accumulation until the delimiter `d` re-occurs
(which is kept in the text); `none` when the input is exhausted first or an
escape is unmapped.  Returns the decoded text and the leftover input. -/
def decodeDelim (d : Char) (esc : Option Char) (emap : List (Char × List Char)) :
    List Char → Option (List Char × List Char)
  | [] => none
  | c :: cs =>
    if some c = esc then
      match cs with
      | [] => none
      | e :: cs' =>
        match emap.lookup e with
        | some rep => (decodeDelim d esc emap cs').map (fun p => (rep ++ p.1, p.2))
        | none => none
    else if c = d then some ([d], cs)
    else (decodeDelim d esc emap cs).map (fun p => (c :: p.1, p.2))

/-- Scanning the characters after an opening delimiter per the spec's rules
— an escape character consumes the following character through the escape
map, the delimiter `d` closes the atom, anything else is accumulated — this
predicate holds exactly when the scan runs off the end of the stream: the
delimiter never re-occurs, every escape is mapped, and the stream does not
end immediately after an escape character. -/
def eofInDelim (d : Char) (esc : Option Char) (emap : List (Char × List Char)) :
    List Char → Bool
  | [] => true
  | c :: cs =>
    if some c = esc then
      match cs with
      | [] => false
      | e :: cs' =>
        match emap.lookup e with
        | some _ => eofInDelim d esc emap cs'
        | none => false
    else if c = d then false
    else eofInDelim d esc emap cs

/-- A stream consisting only of whitespace and comments: the flag is true
while inside a single-line comment. -/
def trivia (cc : Char) : Bool → List Char → Bool
  | _, [] => true
  | true, c :: cs => if c = '\n' then trivia cc false cs else trivia cc true cs
  | false, c :: cs =>
    if isspace c then trivia cc false cs
    else if c = cc then trivia cc true cs
    else false

/-- A stream that is nothing but whitespace and comments. -/
def triviaOnly (cc : Char) (s : List Char) : Bool := trivia cc false s

/-! ## Observation helpers -/

/-- The sequence of values taken by `coord` as `next()` is called once per
remaining character of the stream: the coordinate the cursor records for
each consumed character. -/
def coordTrace : Nat → Cursor → List (Option Coord)
  | 0, _ => []
  | fuel + 1, st =>
    match st.ch with
    | none => []
    | some _ => st.next.coord :: coordTrace fuel st.next

/-- The texts of the elements of a form, provided they are all atoms. -/
def atomTexts : List SExpr → Option (List (List Char))
  | [] => some []
  | .atom t :: rest => (atomTexts rest).map (t :: ·)
  | .form _ _ :: _ => none

/-- Projection of a read result: defined exactly when the input parsed to a
single top-level form all of whose elements are atoms; yields their texts. -/
def topAtoms : Except Err (List SExpr) → Option (List (List Char))
  | .ok [.form elems _] => atomTexts elems
  | _ => none

/-- Pull the generator `n + 1` times: the state after the `n`-th yielded
form is resumed once more. -/
def pulls (cfg : Config) (fuel : Nat) (st : Cursor) : Nat → Except Err (Option (SExpr × Cursor))
  | 0 => readStep cfg fuel st
  | n + 1 =>
    match pulls cfg fuel st n with
    | .ok (some (_, st')) => readStep cfg fuel st'
    | r => r

/-- The `n`-th form (0-based) yielded by the generator on input `s` with the
default configuration, `ok none` when the sequence terminated before it. -/
def yieldAt (s : List Char) (n : Nat) : Except Err (Option SExpr) :=
  (pulls defaultConfig (fuelFor s.length) (Cursor.init s) n).map (Option.map Prod.fst)

/-- Discriminator: is this result an `UnexpectedEOF` error? -/
def isUnexpectedEOF {α : Type} : Except Err α → Bool
  | .error (.unexpectedEOF _) => true
  | _ => false

/-- The character `skip_ws` stops on is the end marker or neither whitespace
nor the comment character. -/
def goodTrivia (cc : Char) : Option Char → Bool
  | none => true
  | some c => !isspace c && c != cc

/-- The value `coord` will hold once the cursor has consumed every remaining
character: the coordinate the reader records for the last character of the
stream (or the current `coord` when the stream is already exhausted). -/
def Cursor.endCoord (st : Cursor) : Option Coord :=
  match st.ch with
  | none => st.coord
  | some _ => some (st.rest.foldl stepC st.nextCoord)

/-! ## Concrete inputs used by the claims -/

/-- The multi-document input of the laziness claim. -/
def doc1 : List Char := "(1 2) (3 (4 5))".toList

/-- The first form of `doc1`. -/
def form12 : SExpr := .form [.atom ['1'], .atom ['2']] (some (1, 1), some (1, 5))

/-- The second form of `doc1`. -/
def form345 : SExpr :=
  .form [.atom ['3'], .form [.atom ['4'], .atom ['5']] (some (1, 10), some (1, 14))]
    (some (1, 7), some (1, 15))

/-! ## Claim theorems (concrete evaluations) -/

/-- Claim C1: the per-consumed-character coordinate rule fails on the code.
On the stream `a`, newline, `b` the spec rule gives the characters the true
positions (1,1), (1,2), (2,1), but the cursor records (1,1), (2,1), (2,2):
`next()` branches on the newly read character instead of the consumed one,
so the row advance is applied to the newline's own coordinate and every
character after it is one column too far right. -/
theorem claimC1_coordinate_rule_fails :
    coordTrace 4 (Cursor.init ('a' :: '\n' :: 'b' :: [])) =
      [some (1, 1), some (2, 1), some (2, 2)] ∧
    specCoords ('a' :: '\n' :: 'b' :: []) = [(1, 1), (1, 2), (2, 1)] ∧
    coordTrace 4 (Cursor.init ('a' :: '\n' :: 'b' :: [])) ≠
      (specCoords ('a' :: '\n' :: 'b' :: [])).map some := by
  decide

/-- Claim C2: on the well-formed input `(`, newline, `)` the parsed form's
span is ((1,1), (2,2)), but the source coordinate of the closing `)` per the
coordinate rule is (2,1): form spans store the cursor's recorded coordinates
of the two brackets, which differ from the true source coordinates after a
newline. -/
theorem claimC2_span_not_source_coordinate :
    read defaultConfig ('(' :: '\n' :: ')' :: []) =
      .ok [.form [] (some (1, 1), some (2, 2))] ∧
    specCoords ('(' :: '\n' :: ')' :: []) = [(1, 1), (1, 2), (2, 1)] ∧
    (some ((2, 2) : Coord) : Option Coord) ≠ some ((2, 1) : Coord) :=
  ⟨rfl, by decide, by decide⟩

/-- Claim C3: on input `abc` the reader does fail with `UnexpectedChar`
whose message names `(` as expected and `a` as found, but the coordinate it
carries is `None` — not the offending character's position (1,1) — because
`coord` is only ever set by `next()` and no character has been consumed yet. -/
theorem claimC3_unexpected_char_coord_none :
    read defaultConfig ('a' :: 'b' :: 'c' :: []) =
      .error (.unexpectedChar none '(' 'a') ∧
    (Err.unexpectedChar none '(' 'a').value =
      "expected ".toList ++ [quoteC, '(', quoteC] ++
        ", got ".toList ++ [quoteC, 'a', quoteC] ∧
    (none : Option Coord) ≠ some ((1, 1) : Coord) :=
  ⟨rfl, rfl, by decide⟩

/-- Claim C5: pulling the generator on `(1 2) (3 (4 5))` yields the form
with atoms `1`, `2`, then the form with atom `3` and the nested form of
atoms `4`, `5`, then terminates; and the first pull yields the very same
first form on the truncated input `(1 2) (3 (4 5`, whose complete read
fails — so consuming only the first form does not force the second. -/
theorem claimC5_lazy_two_forms :
    yieldAt doc1 0 = .ok (some form12) ∧
    yieldAt doc1 1 = .ok (some form345) ∧
    yieldAt doc1 2 = .ok none ∧
    yieldAt "(1 2) (3 (4 5".toList 0 = .ok (some form12) ∧
    isUnexpectedEOF (read defaultConfig "(1 2) (3 (4 5".toList) = true :=
  ⟨rfl, rfl, rfl, rfl, rfl⟩

/-- Claim C6 counterexample: on the input `("` followed by a lone escape
character, end-of-stream is reached after the opening delimiter and before
any closing delimiter, yet the reader fails with `InvalidEscape` (for the
end marker), not `UnexpectedEOF`. -/
theorem claimC6_cex_eof_after_escape :
    read defaultConfig ('(' :: '"' :: '\\' :: []) =
      .error (.invalidEscape (some (1, 3)) none) ∧
    isUnexpectedEOF (read defaultConfig ('(' :: '"' :: '\\' :: [])) = false :=
  ⟨rfl, rfl⟩

/-- Claim C7 counterexample: `|` is configured without an escape character,
yet reading `(|ab|)` yields the atom text `|ab|` — the delimiter characters
are included, contradicting the claim that they are omitted for
configurations without escapes. -/
theorem claimC7_cex_delims_always_kept :
    read defaultConfig "(|ab|)".toList =
      .ok [.form [.atom ('|' :: 'a' :: 'b' :: '|' :: [])] (some (1, 1), some (1, 6))] ∧
    ('|' :: 'a' :: 'b' :: '|' :: []) ≠ ('a' :: 'b' :: []) :=
  ⟨rfl, by decide⟩

/-- Claim C8: the input `(|a b c| || "abc\"def" |abcgf xs!!|)` parses to a
single form of exactly four atoms with texts `|a b c|`, `||`, `"abc"def"`,
`|abcgf xs!!|`: the escape `\"` decodes to a literal `"` and delimiter
characters are preserved verbatim. -/
theorem claimC8_escape_decoding :
    topAtoms (read defaultConfig "(|a b c| || \"abc\\\"def\" |abcgf xs!!|)".toList) =
      some ["|a b c|".toList, "||".toList, "\"abc\"def\"".toList, "|abcgf xs!!|".toList] :=
  rfl

/-- Claim C9: on `("abc\9cde"` the reader fails with `InvalidEscape`
identifying `9`, but the coordinate it carries is (1,6) — the position of
the escape character — while the offending character `9` is at (1,7) (the
seventh entry of the spec's coordinate list): the error carries the
previously consumed character's coordinate, not the offending one's. -/
theorem claimC9_invalid_escape_coord_off_by_one :
    read defaultConfig "(\"abc\\9cde\"".toList =
      .error (.invalidEscape (some (1, 6)) (some '9')) ∧
    specCoords "(\"abc\\9cde\"".toList =
      [(1, 1), (1, 2), (1, 3), (1, 4), (1, 5), (1, 6), (1, 7),
       (1, 8), (1, 9), (1, 10), (1, 11)] ∧
    (some ((1, 6) : Coord) : Option Coord) ≠ some ((1, 7) : Coord) :=
  ⟨rfl, by decide, by decide⟩

/-! ## Cursor lemmas -/

/-- Advancing drops exactly the current character from the unconsumed
suffix. -/
theorem Cursor.unconsumed_next (st : Cursor) : st.next.unconsumed = st.rest := by
  cases hr : st.rest <;> simp [Cursor.next, Cursor.unconsumed, hr]

/-- With a current character, the unconsumed suffix is that character
followed by the unread rest. -/
theorem Cursor.unconsumed_some (st : Cursor) (c : Char) (h : st.ch = some c) :
    st.unconsumed = c :: st.rest := by
  simp [Cursor.unconsumed, h]

/-- Advancing over a character decreases the size by one. -/
theorem Cursor.size_next (st : Cursor) (c : Char) (h : st.ch = some c) :
    st.size = st.next.size + 1 := by
  simp [Cursor.size, Cursor.unconsumed_next, Cursor.unconsumed_some st c h]

/-- Initially, nothing has been consumed. -/
theorem Cursor.unconsumed_init (s : List Char) : (Cursor.init s).unconsumed = s := by
  cases s <;> simp [Cursor.init, Cursor.unconsumed]

/-- After one advance, the final recorded coordinate is the fold of the
coordinate update over the unread rest, started at `next_coord`. -/
theorem Cursor.endCoord_next (st : Cursor) (c : Char) (_h : st.ch = some c) :
    st.next.endCoord = some (st.rest.foldl stepC st.nextCoord) := by
  cases hr : st.rest <;> simp [Cursor.next, Cursor.endCoord, hr]

/-- Advancing over a character does not change the final recorded
coordinate of the stream. -/
theorem Cursor.endCoord_stable (st : Cursor) (c : Char) (h : st.ch = some c) :
    st.next.endCoord = st.endCoord := by
  rw [st.endCoord_next c h]
  simp [Cursor.endCoord, h]

/-- If the stream head of `rest` is the next current character. -/
theorem Cursor.rest_eq_cons (st : Cursor) (e : Char) (h : st.next.ch = some e) :
    st.rest = e :: st.next.rest := by
  cases hr : st.rest <;> simp [Cursor.next, hr] at h ⊢
  exact h

/-! ## Stepping and propagation lemmas -/

/-- Unfolding of the top-level wrapper. -/
theorem read_def (cfg : Config) (s : List Char) :
    read cfg s = readAll cfg (s.length + 16) (Cursor.init s) := rfl

/-- `skip_ws` halts at once on a character that is neither whitespace nor
the comment character. -/
theorem skip_ws_stop (cfg : Config) (fuel : Nat) (st : Cursor) (c : Char)
    (hch : st.ch = some c) (hsp : isspace c = false) (hcc : c ≠ cfg.comment) :
    skip_ws cfg (fuel + 1) st = .ok st := by
  simp [skip_ws, hch, hsp, hcc]

/-- A failing `read_delim` call makes the enclosing `parse` call fail the
same way. -/
theorem parse_delim_err (cfg : Config) (fuel : Nat) (begin : Option Coord)
    (exp : List SExpr) (st st1 : Cursor) (c : Char) (info : DelimInfo) (e : Err)
    (hsw : skip_ws cfg (fuel + 1) st = .ok st1) (hch : st1.ch = some c)
    (h1 : c ≠ '(') (h2 : c ≠ ')') (hl : cfg.delims.lookup c = some info)
    (he : read_delim c info.esc info.emap (fuel + 1) st1 = .error e) :
    parse cfg (fuel + 1) begin exp st = .error e := by
  simp [parse, hsw, hch, h1, h2, hl, he]

/-- A failing top-level `parse` call makes `readStep` fail the same way. -/
theorem readStep_paren_err (cfg : Config) (fuel : Nat) (st st1 : Cursor) (e : Err)
    (hsw : skip_ws cfg fuel st = .ok st1) (hch : st1.ch = some '(')
    (hp : parse cfg fuel st1.next.coord [] st1.next = .error e) :
    readStep cfg fuel st = .error e := by
  simp [readStep, hsw, hch, hp]

/-- A failing `readStep` makes the driver fail the same way. -/
theorem readAll_err (cfg : Config) (fuel : Nat) (st : Cursor) (e : Err)
    (h : readStep cfg (fuel + 1) st = .error e) :
    readAll cfg (fuel + 1) st = .error e := by
  simp [readAll, h]

/-- Trivia followed by end of stream makes `readStep` terminate the
sequence. -/
theorem readStep_eof (cfg : Config) (fuel : Nat) (st st1 : Cursor)
    (hsw : skip_ws cfg fuel st = .ok st1) (hch : st1.ch = none) :
    readStep cfg fuel st = .ok none := by
  simp [readStep, hsw, hch]

/-- A terminating `readStep` makes the driver yield the empty list. -/
theorem readAll_eof (cfg : Config) (fuel : Nat) (st : Cursor)
    (h : readStep cfg (fuel + 1) st = .ok none) :
    readAll cfg (fuel + 1) st = .ok [] := by
  simp [readAll, h]

/-! ## End of stream inside a delimited atom (claim C6) -/

/-- If scanning the unconsumed suffix per the escape rules reaches the end
of the stream, the `read_delim` loop raises `UnexpectedEOF` with the
coordinate recorded for the last consumed character. -/
theorem rdLoop_eof (d : Char) (esc : Option Char) (emap : List (Char × List Char))
    (begin : Option Coord) :
    ∀ fuel (acc : List Char) (st : Cursor), st.size + 1 ≤ fuel →
      eofInDelim d esc emap st.unconsumed = true →
      rdLoop d esc emap begin fuel acc st = .error (.unexpectedEOF st.endCoord) := by
  intro fuel
  induction fuel with
  | zero => intro acc st h _; omega
  | succ f ih =>
    intro acc st hsz heof
    cases hch : st.ch with
    | none => simp [rdLoop, hch, Cursor.endCoord]
    | some c =>
      rw [st.unconsumed_some c hch] at heof
      unfold eofInDelim at heof
      simp only [rdLoop, hch]
      by_cases hesc : some c = esc
      · rw [if_pos hesc] at heof
        rw [if_pos hesc]
        cases hch2 : st.next.ch with
        | none =>
          have hrest : st.rest = [] := by
            cases hr : st.rest with
            | nil => rfl
            | cons a as => simp [Cursor.next, hr] at hch2
          rw [hrest] at heof
          simp at heof
        | some e =>
          have hrest := st.rest_eq_cons e hch2
          rw [hrest] at heof
          cases hl : emap.lookup e with
          | none => simp [hl] at heof
          | some rep =>
            simp only [hl] at heof
            simp only [hch2, hl]
            have hs1 := st.size_next c hch
            have hs2 := st.next.size_next e hch2
            have hun : eofInDelim d esc emap st.next.next.unconsumed = true := by
              rw [Cursor.unconsumed_next]
              exact heof
            rw [ih (acc ++ rep) st.next.next (by omega) hun,
              st.next.endCoord_stable e hch2, st.endCoord_stable c hch]
      · rw [if_neg hesc] at heof
        rw [if_neg hesc]
        by_cases hd : c = d
        · rw [if_pos hd] at heof
          simp at heof
        · rw [if_neg hd] at heof
          rw [if_neg hd]
          have hs1 := st.size_next c hch
          have hun : eofInDelim d esc emap st.next.unconsumed = true := by
            rw [Cursor.unconsumed_next]
            exact heof
          rw [ih (acc ++ [c]) st.next (by omega) hun, st.endCoord_stable c hch]

/-- `read_delim` on a suffix whose scan reaches end of stream fails with
`UnexpectedEOF` at the recorded coordinate of the final character. -/
theorem read_delim_eof (d : Char) (esc : Option Char) (emap : List (Char × List Char))
    (fuel : Nat) (st : Cursor)
    (hch : st.ch = some d) (hsz : st.size + 1 ≤ fuel + 1)
    (heof : eofInDelim d esc emap st.rest = true) :
    read_delim d esc emap (fuel + 1) st =
      .error (.unexpectedEOF (some (st.rest.foldl stepC st.nextCoord))) := by
  have hsz' : st.next.size + 1 ≤ fuel := by
    have := st.size_next d hch
    omega
  have heof' : eofInDelim d esc emap st.next.unconsumed = true := by
    rw [Cursor.unconsumed_next]
    exact heof
  simp only [read_delim, hch]
  rw [rdLoop_eof d esc emap st.coord fuel _ st.next hsz' heof', st.endCoord_next d hch]

/-- Claim C6 (amended): whenever end-of-stream is reached while reading a
delimited atom — the delimiter never re-occurring, every escape mapped, and
the stream not ending immediately after an escape character — the reader
fails with `UnexpectedEOF` carrying the coordinate it recorded for the last
consumed character.  First conjunct: for every delimiter configuration and
every cursor state resting on the opening delimiter, `read_delim` raises
`UnexpectedEOF` at the coordinate-update fold over the remaining characters.
Second conjunct: `read` itself fails that way on `(` followed by such an
atom, for every configuration. -/
theorem claimC6_eof_in_delimited (cfg : Config) (d : Char) (info : DelimInfo)
    (body : List Char) (fuel : Nat) (st : Cursor)
    (hch : st.ch = some d) (hsz : st.size + 1 ≤ fuel + 1)
    (heofc : eofInDelim d info.esc info.emap st.rest = true)
    (hsp : isspace d = false) (hccd : d ≠ cfg.comment)
    (hp1 : d ≠ '(') (hp2 : d ≠ ')')
    (hccp : ('(' : Char) ≠ cfg.comment)
    (hlk : cfg.delims.lookup d = some info)
    (heof : eofInDelim d info.esc info.emap body = true) :
    read_delim d info.esc info.emap (fuel + 1) st =
      .error (.unexpectedEOF (some (st.rest.foldl stepC st.nextCoord))) ∧
    read cfg ('(' :: d :: body) =
      .error (.unexpectedEOF (some (body.foldl stepC (1, 2)))) := by
  constructor
  · exact read_delim_eof d info.esc info.emap fuel st hch hsz heofc
  · have hdn : d ≠ '\n' := by
      intro h
      rw [h] at hsp
      exact absurd hsp (by decide)
    have hnc : stepC (1, 1) d = (1, 2) := by simp [stepC, hdn]
    have hlen : ('(' :: d :: body).length + 16 = body.length + 17 + 1 := by
      simp only [List.length_cons]
    have hsw0 : skip_ws cfg (body.length + 17 + 1) (Cursor.init ('(' :: d :: body)) =
        .ok (Cursor.init ('(' :: d :: body)) :=
      skip_ws_stop _ _ _ '(' rfl rfl hccp
    have hnx : (Cursor.init ('(' :: d :: body)).next =
        ⟨body, some d, some (1, 1), (1, 2)⟩ := by
      rw [show (Cursor.init ('(' :: d :: body)).next =
        ⟨body, some d, some (1, 1), stepC (1, 1) d⟩ from rfl, hnc]
    have hsz2 : (⟨body, some d, some (1, 1), (1, 2)⟩ : Cursor).size + 1 ≤
        body.length + 17 + 1 := by
      simp [Cursor.size, Cursor.unconsumed]
    have hrd := read_delim_eof d info.esc info.emap (body.length + 17)
      ⟨body, some d, some (1, 1), (1, 2)⟩ rfl hsz2 heof
    have hsw1 : skip_ws cfg (body.length + 17 + 1)
        (⟨body, some d, some (1, 1), (1, 2)⟩ : Cursor) =
        .ok (⟨body, some d, some (1, 1), (1, 2)⟩ : Cursor) :=
      skip_ws_stop _ _ _ d rfl hsp hccd
    have hp := parse_delim_err cfg (body.length + 17) (some (1, 1)) []
      ⟨body, some d, some (1, 1), (1, 2)⟩ ⟨body, some d, some (1, 1), (1, 2)⟩
      d info _ hsw1 rfl hp1 hp2 hlk hrd
    have hpx : parse cfg (body.length + 17 + 1) (Cursor.init ('(' :: d :: body)).next.coord
        [] (Cursor.init ('(' :: d :: body)).next =
        .error (.unexpectedEOF (some (body.foldl stepC (1, 2)))) := by
      rw [hnx]
      exact hp
    have hstep := readStep_paren_err cfg (body.length + 17 + 1)
      (Cursor.init ('(' :: d :: body)) (Cursor.init ('(' :: d :: body)) _ hsw0 rfl hpx
    have hall := readAll_err cfg (body.length + 17) _ _ hstep
    rw [read_def, hlen]
    exact hall

/-- Witness for claim C6, at the mapped-escape-then-EOF input `("a\nb`: the
body `a`, backslash, `n`, `b` scans through the mapped escape and reaches
end of stream, and the reader fails with `UnexpectedEOF` at (1,6), the
recorded coordinate of the final `b` — both at the `read_delim` level and
through `read`. -/
theorem claimC6_eof_in_delimited_witness :
    read_delim '"' (some '\\')
      [('n', ['\n']), ('t', ['\t']), ('r', ['\r']), ('\\', ['\\']), ('"', ['"'])]
      31 ⟨['a', '\\', 'n', 'b'], some '"', some (1, 1), (1, 2)⟩ =
      .error (.unexpectedEOF (some (1, 6))) ∧
    read defaultConfig ['(', '"', 'a', '\\', 'n', 'b'] =
      .error (.unexpectedEOF (some (1, 6))) :=
  claimC6_eof_in_delimited defaultConfig '"'
    ⟨some '\\', [('n', ['\n']), ('t', ['\t']), ('r', ['\r']), ('\\', ['\\']), ('"', ['"'])]⟩
    ['a', '\\', 'n', 'b'] 30 ⟨['a', '\\', 'n', 'b'], some '"', some (1, 1), (1, 2)⟩
    rfl (by decide) (by decide) rfl (by decide) (by decide) (by decide) (by decide)
    rfl (by decide)

/-! ## Trivia-only streams (claim C4) -/

/-- The comment loop consumes a comment prefix and leaves a trivia-only
suffix, never growing the stream. -/
theorem skipComment_trivia (cc : Char) :
    ∀ fuel (st : Cursor), st.size + 1 ≤ fuel → trivia cc true st.unconsumed = true →
      ∃ st', skipComment fuel st = .ok st' ∧
        trivia cc false st'.unconsumed = true ∧ st'.size ≤ st.size := by
  intro fuel
  induction fuel with
  | zero => intro st h _; omega
  | succ f ih =>
    intro st hsz htr
    cases hch : st.ch with
    | none =>
      exact ⟨st, by simp [skipComment, hch], by simp [Cursor.unconsumed, hch, trivia],
        le_refl _⟩
    | some c =>
      by_cases hnl : c = '\n'
      · subst hnl
        refine ⟨st, by simp [skipComment, hch], ?_, le_refl _⟩
        rw [st.unconsumed_some _ hch] at htr ⊢
        have h1 : trivia cc true ('\n' :: st.rest) = trivia cc false st.rest := by
          simp [trivia]
        have h2 : trivia cc false ('\n' :: st.rest) = trivia cc false st.rest := by
          have hs : isspace '\n' = true := rfl
          simp [trivia, hs]
        rw [h2, ← h1]
        exact htr
      · have htr' : trivia cc true st.next.unconsumed = true := by
          rw [Cursor.unconsumed_next]
          rw [st.unconsumed_some c hch] at htr
          simpa [trivia, hnl] using htr
        have hsz' : st.next.size + 1 ≤ f := by
          have := st.size_next c hch; omega
        obtain ⟨st', h1, h2, h3⟩ := ih st.next hsz' htr'
        refine ⟨st', ?_, h2, ?_⟩
        · simp [skipComment, hch, hnl, h1]
        · have := st.size_next c hch; omega

/-- On a trivia-only unconsumed suffix, `skip_ws` succeeds and stops at end
of stream. -/
theorem skip_ws_trivia (cfg : Config) :
    ∀ fuel (st : Cursor), st.size + 1 ≤ fuel →
      trivia cfg.comment false st.unconsumed = true →
      ∃ st', skip_ws cfg fuel st = .ok st' ∧ st'.ch = none := by
  intro fuel
  induction fuel with
  | zero => intro st h _; omega
  | succ f ih =>
    intro st hsz htr
    cases hch : st.ch with
    | none => exact ⟨st, by simp [skip_ws, hch], hch⟩
    | some c =>
      rw [st.unconsumed_some c hch] at htr
      by_cases hsp : isspace c = true
      · have htr' : trivia cfg.comment false st.next.unconsumed = true := by
          rw [Cursor.unconsumed_next]
          simpa [trivia, hsp] using htr
        have hsz' : st.next.size + 1 ≤ f := by have := st.size_next c hch; omega
        obtain ⟨st', h1, h2⟩ := ih st.next hsz' htr'
        exact ⟨st', by simp [skip_ws, hch, hsp, h1], h2⟩
      · by_cases hcc : c = cfg.comment
        · have e1 : trivia cfg.comment false (c :: st.rest) =
              trivia cfg.comment true st.rest := by
            simp only [trivia]
            rw [if_neg hsp, if_pos hcc]
          have htr' : trivia cfg.comment true st.next.unconsumed = true := by
            rw [Cursor.unconsumed_next]
            rw [e1] at htr
            exact htr
          have hsz' : st.next.size + 1 ≤ f := by have := st.size_next c hch; omega
          obtain ⟨st'', hc1, hc2, hc3⟩ := skipComment_trivia cfg.comment f st.next hsz' htr'
          have hsz'' : st''.size + 1 ≤ f := by
            have h4 := st.size_next c hch
            omega
          obtain ⟨st', h1, h2⟩ := ih st'' hsz'' hc2
          refine ⟨st', ?_, h2⟩
          simp only [skip_ws, hch]
          rw [if_neg hsp, if_pos hcc]
          simp [hc1, h1]
        · exfalso
          simp [trivia, hsp, hcc] at htr

/-- Claim C4: an empty stream, and any stream consisting only of whitespace
and comments, makes the reader terminate cleanly with zero top-level forms
and no error, for every configuration. -/
theorem claimC4_trivia_reads_empty (cfg : Config) (s : List Char)
    (h : triviaOnly cfg.comment s = true) : read cfg s = .ok [] := by
  have hu : (Cursor.init s).unconsumed = s := Cursor.unconsumed_init s
  have hsz : (Cursor.init s).size + 1 ≤ s.length + 15 + 1 := by
    simp only [Cursor.size, hu]
    omega
  have htr : trivia cfg.comment false (Cursor.init s).unconsumed = true := by
    rw [hu]; exact h
  obtain ⟨st', h1, h2⟩ := skip_ws_trivia cfg (s.length + 15 + 1) (Cursor.init s) hsz htr
  have h3 := readStep_eof cfg (s.length + 15 + 1) _ _ h1 h2
  have h4 := readAll_eof cfg (s.length + 15) _ h3
  rw [read_def]
  have hq : s.length + 16 = s.length + 15 + 1 := by omega
  rw [hq]
  exact h4

/-- Witness for claim C4: the empty input and a whitespace-and-comment
input both read to zero forms without error. -/
theorem claimC4_trivia_reads_empty_witness :
    triviaOnly ';' ([] : List Char) = true ∧ read defaultConfig [] = .ok [] ∧
    triviaOnly ';' "; hi\n  ".toList = true ∧
    read defaultConfig "; hi\n  ".toList = .ok [] :=
  ⟨by decide, claimC4_trivia_reads_empty defaultConfig [] (by decide),
   by decide, claimC4_trivia_reads_empty defaultConfig _ (by decide)⟩

/-! ## Decoding of delimited atoms (claim C7) -/

/-- A successful run of the `read_delim` loop is exactly a successful run of
the spec-side decoder on the unconsumed suffix: the produced text is the
accumulator followed by the decoded text, and the cursor is left on the
decoder's leftover. -/
theorem rdLoop_decode (d : Char) (esc : Option Char) (emap : List (Char × List Char))
    (begin : Option Coord) :
    ∀ fuel (acc t : List Char) (rng : CRange) (st st' : Cursor),
      rdLoop d esc emap begin fuel acc st = .ok (t, rng, st') →
      ∃ u, decodeDelim d esc emap st.unconsumed = some (u, st'.unconsumed) ∧
        t = acc ++ u := by
  intro fuel
  induction fuel with
  | zero => intro acc t rng st st' h; simp [rdLoop] at h
  | succ f ih =>
    intro acc t rng st st' h
    cases hch : st.ch with
    | none => simp [rdLoop, hch] at h
    | some c =>
      rw [st.unconsumed_some c hch]
      simp only [rdLoop, hch] at h
      by_cases hesc : some c = esc
      · rw [if_pos hesc] at h
        cases hch2 : st.next.ch with
        | none => rw [hch2] at h; simp at h
        | some e =>
          simp only [hch2] at h
          cases hl : emap.lookup e with
          | none => simp [hl] at h
          | some rep =>
            simp only [hl] at h
            obtain ⟨u, hu, ht⟩ := ih (acc ++ rep) t rng st.next.next st' h
            rw [Cursor.unconsumed_next] at hu
            refine ⟨rep ++ u, ?_, by rw [ht, List.append_assoc]⟩
            unfold decodeDelim
            rw [if_pos hesc, st.rest_eq_cons e hch2]
            simp [hl, hu]
      · rw [if_neg hesc] at h
        by_cases hd : c = d
        · rw [if_pos hd] at h
          simp only [Except.ok.injEq, Prod.mk.injEq] at h
          obtain ⟨ht, _, hst⟩ := h
          refine ⟨[c], ?_, ht.symm⟩
          unfold decodeDelim
          rw [if_neg hesc, if_pos hd, ← hst, Cursor.unconsumed_next, hd]
        · rw [if_neg hd] at h
          obtain ⟨u, hu, ht⟩ := ih (acc ++ [c]) t rng st.next st' h
          rw [Cursor.unconsumed_next] at hu
          refine ⟨c :: u, ?_, by rw [ht]; simp⟩
          unfold decodeDelim
          rw [if_neg hesc, if_neg hd]
          simp [hu]

/-- Whatever the spec-side decoder produces ends with the closing
delimiter. -/
theorem decodeDelim_ends (d : Char) (esc : Option Char) (emap : List (Char × List Char)) :
    ∀ n (l u r : List Char), l.length ≤ n → decodeDelim d esc emap l = some (u, r) →
      ∃ v, u = v ++ [d] := by
  intro n
  induction n with
  | zero =>
    intro l u r hl h
    cases l with
    | nil => simp [decodeDelim] at h
    | cons c cs => simp at hl
  | succ m ih =>
    intro l u r hl h
    cases l with
    | nil => simp [decodeDelim] at h
    | cons c cs =>
      unfold decodeDelim at h
      by_cases hesc : some c = esc
      · rw [if_pos hesc] at h
        cases cs with
        | nil => simp at h
        | cons e cs' =>
          cases hlk : emap.lookup e with
          | none => simp [hlk] at h
          | some rep =>
            simp only [hlk] at h
            rcases Option.map_eq_some'.mp h with ⟨p, hp, he⟩
            have hlen : cs'.length ≤ m := by
              simp only [List.length_cons] at hl
              omega
            obtain ⟨v, hv⟩ := ih cs' p.1 p.2 hlen hp
            refine ⟨rep ++ v, ?_⟩
            have : u = rep ++ p.1 := by
              have := congrArg Prod.fst he
              simpa using this.symm
            rw [this, hv, List.append_assoc]
      · rw [if_neg hesc] at h
        by_cases hd : c = d
        · rw [if_pos hd] at h
          have : u = [d] := by
            have := congrArg Prod.fst (Option.some.inj h)
            simpa using this.symm
          exact ⟨[], by simpa using this⟩
        · rw [if_neg hd] at h
          rcases Option.map_eq_some'.mp h with ⟨p, hp, he⟩
          have hlen : cs.length ≤ m := by
            simp only [List.length_cons] at hl
            omega
          obtain ⟨v, hv⟩ := ih cs p.1 p.2 hlen hp
          refine ⟨c :: v, ?_⟩
          have : u = c :: p.1 := by
            have := congrArg Prod.fst he
            simpa using this.symm
          rw [this, hv]
          rfl

/-- Claim C7 (amended): every successfully read delimited atom's text is the
decoded text of the body — escapes replaced per the escape map — and it
includes the literal delimiter character at both ends, for every delimiter
configuration, with or without an escape character. -/
theorem claimC7_delim_text_decoded (d : Char) (esc : Option Char)
    (emap : List (Char × List Char)) (fuel : Nat) (st st' : Cursor)
    (t : List Char) (rng : CRange)
    (hch : st.ch = some d)
    (h : read_delim d esc emap fuel st = .ok (t, rng, st')) :
    decodeDelim d esc emap st.rest = some (t.drop 1, st'.unconsumed) ∧
    t = d :: t.drop 1 ∧ t.getLast? = some d := by
  cases fuel with
  | zero => simp [read_delim] at h
  | succ f =>
    simp only [read_delim, hch] at h
    obtain ⟨u, hu, ht⟩ := rdLoop_decode d esc emap st.coord f [d] t rng st.next st' h
    rw [Cursor.unconsumed_next] at hu
    obtain ⟨v, hv⟩ := decodeDelim_ends d esc emap st.rest.length st.rest u st'.unconsumed
      (le_refl _) hu
    have hdrop : t.drop 1 = u := by rw [ht]; rfl
    refine ⟨by rw [hdrop]; exact hu, by rw [hdrop, ht]; rfl, ?_⟩
    rw [ht, hv]
    rw [show ([d] : List Char) ++ (v ++ [d]) = (d :: v) ++ [d] from by simp]
    exact List.getLast?_concat _

/-- Witness for claim C7: reading the empty double-quoted string from
`""` yields the text `""` — the decoder accepts the one-character body and
the delimiters are present at both ends. -/
theorem claimC7_delim_text_decoded_witness :
    decodeDelim '"' (some '\\')
      [('n', ['\n']), ('t', ['\t']), ('r', ['\r']), ('\\', ['\\']), ('"', ['"'])]
      ['"'] = some (['"'], []) ∧
    (['"', '"'] : List Char) = '"' :: ['"'] ∧
    (['"', '"'] : List Char).getLast? = some '"' :=
  claimC7_delim_text_decoded '"' (some '\\')
    [('n', ['\n']), ('t', ['\t']), ('r', ['\r']), ('\\', ['\\']), ('"', ['"'])]
    3 (Cursor.init ['"', '"']) ⟨[], none, some (1, 2), (1, 3)⟩ ['"', '"']
    (none, some (1, 2)) rfl rfl

/-! ## The bare-atom assertion can never fail (claim C10) -/

/-- Whenever `skip_ws` returns, the character it stopped on is the end marker
or neither whitespace nor the comment character. -/
theorem skip_ws_good (cfg : Config) :
    ∀ fuel (st st' : Cursor), skip_ws cfg fuel st = .ok st' →
      goodTrivia cfg.comment st'.ch = true := by
  intro fuel
  induction fuel with
  | zero => intro st st' h; simp [skip_ws] at h
  | succ f ih =>
    intro st st' h
    cases hch : st.ch with
    | none =>
      simp only [skip_ws, hch, Except.ok.injEq] at h
      subst h
      simp [goodTrivia, hch]
    | some c =>
      simp only [skip_ws, hch] at h
      by_cases hsp : isspace c = true
      · rw [if_pos hsp] at h
        exact ih st.next st' h
      · rw [if_neg hsp] at h
        by_cases hcc : c = cfg.comment
        · rw [if_pos hcc] at h
          cases hsc : skipComment f st.next with
          | error e => rw [hsc] at h; simp at h
          | ok st'' =>
            rw [hsc] at h
            simp only [] at h
            exact ih st'' st' h
        · rw [if_neg hcc] at h
          simp only [Except.ok.injEq] at h
          subst h
          simp [goodTrivia, hch, hsp, hcc]

/-- The comment loop never reports an assertion failure. -/
theorem skipComment_no_assert : ∀ fuel (st : Cursor),
    skipComment fuel st ≠ .error .assertFail := by
  intro fuel
  induction fuel with
  | zero => intro st h; simp [skipComment] at h
  | succ f ih =>
    intro st h
    cases hch : st.ch with
    | none => simp [skipComment, hch] at h
    | some c =>
      simp only [skipComment, hch] at h
      by_cases hnl : c = '\n'
      · rw [if_pos hnl] at h; simp at h
      · rw [if_neg hnl] at h; exact ih st.next h

/-- The trivia skipper never reports an assertion failure. -/
theorem skip_ws_no_assert (cfg : Config) : ∀ fuel (st : Cursor),
    skip_ws cfg fuel st ≠ .error .assertFail := by
  intro fuel
  induction fuel with
  | zero => intro st h; simp [skip_ws] at h
  | succ f ih =>
    intro st h
    cases hch : st.ch with
    | none => simp [skip_ws, hch] at h
    | some c =>
      simp only [skip_ws, hch] at h
      by_cases hsp : isspace c = true
      · rw [if_pos hsp] at h
        exact ih st.next h
      · rw [if_neg hsp] at h
        by_cases hcc : c = cfg.comment
        · rw [if_pos hcc] at h
          cases hsc : skipComment f st.next with
          | error e =>
            rw [hsc] at h
            simp only [Except.error.injEq] at h
            subst h
            exact skipComment_no_assert f st.next hsc
          | ok st'' =>
            rw [hsc] at h
            simp only [] at h
            exact ih st'' h
        · rw [if_neg hcc] at h
          simp at h

/-- The delimited-atom loop never reports an assertion failure. -/
theorem rdLoop_no_assert (d : Char) (esc : Option Char)
    (emap : List (Char × List Char)) (begin : Option Coord) :
    ∀ fuel (acc : List Char) (st : Cursor),
      rdLoop d esc emap begin fuel acc st ≠ .error .assertFail := by
  intro fuel
  induction fuel with
  | zero => intro acc st h; simp [rdLoop] at h
  | succ f ih =>
    intro acc st h
    cases hch : st.ch with
    | none => simp [rdLoop, hch] at h
    | some c =>
      simp only [rdLoop, hch] at h
      by_cases hesc : some c = esc
      · rw [if_pos hesc] at h
        cases hch2 : st.next.ch with
        | none => rw [hch2] at h; simp at h
        | some e =>
          simp only [hch2] at h
          cases hl : emap.lookup e with
          | none => simp [hl] at h
          | some rep =>
            simp only [hl] at h
            exact ih (acc ++ rep) st.next.next h
      · rw [if_neg hesc] at h
        by_cases hd : c = d
        · rw [if_pos hd] at h; simp at h
        · rw [if_neg hd] at h
          exact ih (acc ++ [c]) st.next h

/-- `read_delim` never reports an assertion failure. -/
theorem read_delim_no_assert (d : Char) (esc : Option Char)
    (emap : List (Char × List Char)) (fuel : Nat) (st : Cursor) :
    read_delim d esc emap fuel st ≠ .error .assertFail := by
  cases fuel with
  | zero => intro h; simp [read_delim] at h
  | succ f =>
    intro h
    simp only [read_delim] at h
    exact rdLoop_no_assert d esc emap st.coord f _ st.next h

/-- The bare-atom loop never reports an assertion failure. -/
theorem raLoop_no_assert (cfg : Config) : ∀ fuel (acc : List Char) (st : Cursor),
    raLoop cfg fuel acc st ≠ .error .assertFail := by
  intro fuel
  induction fuel with
  | zero => intro acc st h; simp [raLoop] at h
  | succ f ih =>
    intro acc st h
    cases hch : st.ch with
    | none => simp [raLoop, hch] at h
    | some c =>
      simp only [raLoop, hch] at h
      by_cases hstop : (isspace c || symDelim cfg c) = true
      · rw [if_pos hstop] at h; simp at h
      · rw [if_neg hstop] at h
        exact ih (acc ++ [c]) st.next h

/-- `read_atom` never reports an assertion failure. -/
theorem read_atom_no_assert (cfg : Config) (fuel : Nat) (st : Cursor) :
    read_atom cfg fuel st ≠ .error .assertFail := by
  intro h
  unfold read_atom at h
  cases hra : raLoop cfg fuel [] st with
  | error e =>
    rw [hra] at h
    simp only [Except.error.injEq] at h
    subst h
    exact raLoop_no_assert cfg fuel [] st hra
  | ok p =>
    rw [hra] at h
    simp at h

/-- The form parser never reports an assertion failure: the bare-atom branch
is only ever reached on a character `skip_ws` vouches for. -/
theorem parse_no_assert (cfg : Config) :
    ∀ fuel (begin : Option Coord) (exp : List SExpr) (st : Cursor),
      parse cfg fuel begin exp st ≠ .error .assertFail := by
  intro fuel
  induction fuel with
  | zero => intro b exp st h; simp [parse] at h
  | succ f ih =>
    intro b exp st h
    cases hsw : skip_ws cfg (f + 1) st with
    | error e =>
      simp only [parse, hsw, Except.error.injEq] at h
      subst h
      exact skip_ws_no_assert cfg (f + 1) st hsw
    | ok st1 =>
      simp only [parse, hsw] at h
      cases hch : st1.ch with
      | none => simp [hch] at h
      | some c =>
        simp only [hch] at h
        by_cases hc1 : c = '('
        · rw [if_pos hc1] at h
          cases hp : parse cfg f st1.next.coord [] st1.next with
          | error e =>
            rw [hp] at h
            simp only [Except.error.injEq] at h
            subst h
            exact ih st1.next.coord [] st1.next hp
          | ok p =>
            obtain ⟨s, st3⟩ := p
            rw [hp] at h
            simp only [] at h
            exact ih b (exp ++ [s]) st3 h
        · rw [if_neg hc1] at h
          by_cases hc2 : c = ')'
          · rw [if_pos hc2] at h
            simp at h
          · rw [if_neg hc2] at h
            cases hlk : cfg.delims.lookup c with
            | some info =>
              simp only [hlk] at h
              cases hrd : read_delim c info.esc info.emap (f + 1) st1 with
              | error e =>
                rw [hrd] at h
                simp only [Except.error.injEq] at h
                subst h
                exact read_delim_no_assert c info.esc info.emap (f + 1) st1 hrd
              | ok p =>
                obtain ⟨t, rng2, st2⟩ := p
                rw [hrd] at h
                simp only [] at h
                exact ih b (exp ++ [.atom t]) st2 h
            | none =>
              simp only [hlk] at h
              by_cases hsp : isspace c = true
              · have hg := skip_ws_good cfg (f + 1) st st1 hsw
                rw [hch] at hg
                simp only [goodTrivia, Bool.and_eq_true, Bool.not_eq_true'] at hg
                rw [hg.1] at hsp
                simp at hsp
              · rw [if_neg hsp] at h
                cases hra : read_atom cfg (f + 1) st1 with
                | error e =>
                  rw [hra] at h
                  simp only [Except.error.injEq] at h
                  subst h
                  exact read_atom_no_assert cfg (f + 1) st1 hra
                | ok p =>
                  obtain ⟨t, rng2, st2⟩ := p
                  rw [hra] at h
                  simp only [] at h
                  exact ih b (exp ++ [.atom t]) st2 h

/-- One generator step never reports an assertion failure. -/
theorem readStep_no_assert (cfg : Config) (fuel : Nat) (st : Cursor) :
    readStep cfg fuel st ≠ .error .assertFail := by
  intro h
  cases hsw : skip_ws cfg fuel st with
  | error e =>
    simp only [readStep, hsw, Except.error.injEq] at h
    subst h
    exact skip_ws_no_assert cfg fuel st hsw
  | ok st1 =>
    simp only [readStep, hsw] at h
    cases hch : st1.ch with
    | none => simp [hch] at h
    | some c =>
      simp only [hch] at h
      by_cases hc : c = '('
      · rw [if_pos hc] at h
        cases hp : parse cfg fuel st1.next.coord [] st1.next with
        | error e =>
          rw [hp] at h
          simp only [Except.error.injEq] at h
          subst h
          exact parse_no_assert cfg fuel st1.next.coord [] st1.next hp
        | ok p =>
          obtain ⟨s, st3⟩ := p
          rw [hp] at h
          simp at h
      · rw [if_neg hc] at h
        simp at h

/-- The reader driver never reports an assertion failure. -/
theorem readAll_no_assert (cfg : Config) : ∀ fuel (st : Cursor),
    readAll cfg fuel st ≠ .error .assertFail := by
  intro fuel
  induction fuel with
  | zero => intro st h; simp [readAll] at h
  | succ f ih =>
    intro st h
    cases hrs : readStep cfg (f + 1) st with
    | error e =>
      simp only [readAll, hrs, Except.error.injEq] at h
      subst h
      exact readStep_no_assert cfg (f + 1) st hrs
    | ok o =>
      cases o with
      | none => simp [readAll, hrs] at h
      | some p =>
        obtain ⟨s, st'⟩ := p
        simp only [readAll, hrs] at h
        cases hrest : readAll cfg f st' with
        | error e =>
          rw [hrest] at h
          simp only [Except.error.injEq] at h
          subst h
          exact ih st' hrest
        | ok l =>
          rw [hrest] at h
          simp at h

/-- Claim C10: for every configuration, `skip_ws` stops on the end marker or
on a character that is neither whitespace nor the comment character, and
consequently the `assert not c.isspace()` in the bare-atom branch can never
fire: `read` never returns the assertion failure, on any input. -/
theorem claimC10_skip_ws_good_no_assert (cfg : Config) (fuel : Nat)
    (st st' : Cursor) (s : List Char)
    (h : skip_ws cfg fuel st = .ok st') :
    goodTrivia cfg.comment st'.ch = true ∧ read cfg s ≠ .error .assertFail :=
  ⟨skip_ws_good cfg fuel st st' h, readAll_no_assert cfg _ _⟩

/-- Witness for claim C10: after skipping `  ` the reader rests on `a`, which
is neither whitespace nor `;`, and reading `x` raises no assertion error. -/
theorem claimC10_skip_ws_good_no_assert_witness :
    goodTrivia ';' (some 'a') = true ∧ read defaultConfig ['x'] ≠ .error .assertFail :=
  claimC10_skip_ws_good_no_assert defaultConfig 5 (Cursor.init [' ', ' ', 'a'])
    ⟨[], some 'a', some (1, 2), (1, 3)⟩ ['x'] rfl
